import Mathlib

/-!
# Verification of the CH32V003 IR remote control encoders

Shallow embedding of `src/software/ir_remote/src/main.c`.  The hardware
primitives (`IR_on`, `IR_off`, `DLY_us`, `DLY_ms`, `PWM_set`) are modelled as
emitters of abstract actions; every protocol encoder then becomes a pure
function from its arguments, the `RC5_toggle` global (threaded explicitly as a
natural number, since it is the only mutable global the encoders touch) and
the sequence of `KEY_read` hold-query responses to a trace of actions together
with the updated global.  A hold-query response `true` means "the originating
button is still pressed".
-/

/-- One hardware-level action of the transmitter: switch the carrier
modulation on, switch it off, block for a number of microseconds, or
reprogram the PWM carrier frequency. -/
inductive Act where
  | on : Act
  | off : Act
  | dly : ℕ → Act
  | freq : ℕ → Act
deriving DecidableEq, Repr

/-- A trace of transmitter actions. -/
abbrev Trace := List Act

/-- `IR_on()` macro: output PWM (carrier on). -/
def IR_on : Trace := [Act.on]

/-- `IR_off()` macro: output LOW (carrier off). -/
def IR_off : Trace := [Act.off]

/-- `DLY_us(n)`: blocking delay of `n` microseconds. -/
def DLY_us (n : ℕ) : Trace := [Act.dly n]

/-- `DLY_ms(n)`: blocking delay of `n` milliseconds. -/
def DLY_ms (n : ℕ) : Trace := [Act.dly (1000 * n)]

/-- `PWM_set(freq)`: set carrier frequency and 25% duty cycle. -/
def PWM_set (f : ℕ) : Trace := [Act.freq f]

/-- NEC carrier frequency in Hertz (`NEC_FREQ`). -/
def NEC_FREQ : ℕ := 38000

/-- `NEC_startPulse()`: 9ms burst + 4.5ms space. -/
def NEC_startPulse : Trace := IR_on ++ DLY_us 9000 ++ IR_off ++ DLY_us 4500

/-- `NEC_repeatPulse()`: 9ms burst + 2.25ms space. -/
def NEC_repeatPulse : Trace := IR_on ++ DLY_us 9000 ++ IR_off ++ DLY_us 2250

/-- `NEC_normalPulse()`: compensated 562.5us burst + 562.5us space. -/
def NEC_normalPulse : Trace := IR_on ++ DLY_us 552 ++ IR_off ++ DLY_us 543

/-- `NEC_bit1Pause()`: extra 1125us space extending a "1" bit. -/
def NEC_bit1Pause : Trace := DLY_us 1125

/-- `NEC_repeatCode()`: 40ms wait, repeat frame, end burst, 56ms wait. -/
def NEC_repeatCode : Trace :=
  DLY_ms 40 ++ NEC_repeatPulse ++ NEC_normalPulse ++ DLY_ms 56

/-- The `for(uint8_t i=8; i; i--, value>>=1)` loop body of `NEC_sendByte`,
generalised over the loop counter. -/
def NEC_sendBits : ℕ → ℕ → Trace
  | _, 0 => []
  | value, i + 1 =>
      NEC_normalPulse ++ (if value % 2 = 1 then NEC_bit1Pause else []) ++
        NEC_sendBits (value / 2) i

/-- `NEC_sendByte(uint8_t value)`: send 8 bits, LSB first.  The `% 256`
models the conversion of the argument to `uint8_t`. -/
def NEC_sendByte (value : ℕ) : Trace := NEC_sendBits (value % 256) 8

/-- `while(KEY_read()) body;` driven by the list of hold-query responses:
each iteration reads one response, runs `body` on `true` and exits on
`false`. -/
def whileKey (body : Trace) : List Bool → Trace
  | [] => []
  | k :: ks => if k then body ++ whileKey body ks else []

/-- `do body while(KEY_read());` driven by the list of hold-query responses:
`body` runs, then one response is read; `true` loops, `false` exits. -/
def doWhileKey (body : Trace) : List Bool → Trace
  | [] => body
  | k :: ks => body ++ (if k then doWhileKey body ks else [])

/-- The telegram part of `NEC_sendCode`: start frame, address bytes
(standard or extended), command byte and its inverse, end burst.
`255 - x % 256` models the `uint8_t` truncation of the C bitwise
complement `~x`. -/
def NEC_telegram (addr cmd : ℕ) : Trace :=
  let a := addr % 65536
  let c := cmd % 256
  NEC_startPulse ++
    (if a > 0xff then NEC_sendByte a ++ NEC_sendByte (a / 256)
     else NEC_sendByte a ++ NEC_sendByte (255 - a % 256)) ++
    NEC_sendByte c ++ NEC_sendByte (255 - c % 256) ++
    NEC_normalPulse

/-- `NEC_sendCode(uint16_t addr, uint8_t cmd)`.  The extra `ℕ` argument and
result thread the `RC5_toggle` global, which this function never reads or
writes. -/
def NEC_sendCode (addr cmd toggle : ℕ) (keys : List Bool) : Trace × ℕ :=
  (PWM_set NEC_FREQ ++ NEC_telegram addr cmd ++ whileKey NEC_repeatCode keys,
   toggle)

/-- `SAM_startPulse()`: 4.5ms burst + 4.5ms space. -/
def SAM_startPulse : Trace := IR_on ++ DLY_us 4500 ++ IR_off ++ DLY_us 4500

/-- `SAM_repeatPause()`: 44ms wait between Samsung telegrams. -/
def SAM_repeatPause : Trace := DLY_ms 44

/-- The body of the `do ... while(KEY_read())` loop of `SAM_sendCode`. -/
def SAM_telegram (addr cmd : ℕ) : Trace :=
  let a := addr % 256
  let c := cmd % 256
  SAM_startPulse ++ NEC_sendByte a ++ NEC_sendByte a ++
    NEC_sendByte c ++ NEC_sendByte (255 - c) ++ NEC_normalPulse ++
    SAM_repeatPause

/-- `SAM_sendCode(uint8_t addr, uint8_t cmd)`; leaves `RC5_toggle`
unchanged. -/
def SAM_sendCode (addr cmd toggle : ℕ) (keys : List Bool) : Trace × ℕ :=
  (PWM_set NEC_FREQ ++ doWhileKey (SAM_telegram addr cmd) keys, toggle)

/-- RC-5 carrier frequency in Hertz (`RC5_FREQ`). -/
def RC5_FREQ : ℕ := 36000

/-- `RC5_bit0Pulse()`: carrier on 880us then off 871us (compensated). -/
def RC5_bit0Pulse : Trace := IR_on ++ DLY_us 880 ++ IR_off ++ DLY_us 871

/-- `RC5_bit1Pulse()`: carrier off 880us then on 871us (compensated). -/
def RC5_bit1Pulse : Trace := IR_off ++ DLY_us 880 ++ IR_on ++ DLY_us 871

/-- `RC5_repeatPause()`: 89ms wait between RC-5 telegrams. -/
def RC5_repeatPause : Trace := DLY_ms 89

/-- `RC5_startBit` bitmask. -/
def RC5_startBit : ℕ := 0b0010000000000000

/-- `RC5_cmdBit7` bitmask. -/
def RC5_cmdBit7 : ℕ := 0b0001000000000000

/-- `RC5_toggleBit` bitmask. -/
def RC5_toggleBit : ℕ := 0b0000100000000000

/-- The 14-bit RC-5 message assembled by `RC5_sendCode` from address,
command and the current `RC5_toggle` value.  `255 - c` models the
promoted complement `~cmd` restricted to the tested bit. -/
def RC5_message (addr cmd toggle : ℕ) : ℕ :=
  let a := addr % 256
  let c := cmd % 256
  let m := (a <<< 6) ||| (c &&& 0x3f)
  let m := if (255 - c) &&& 0x40 ≠ 0 then m ||| RC5_cmdBit7 else m
  let m := m ||| RC5_startBit
  if toggle ≠ 0 then m ||| RC5_toggleBit else m

/-- The `for(uint8_t i=14; i; i--, bitmask>>=1)` loop of `RC5_sendCode`,
generalised over the bitmask and the loop counter. -/
def RC5_sendBits (message : ℕ) : ℕ → ℕ → Trace
  | _, 0 => []
  | bitmask, i + 1 =>
      (if message &&& bitmask ≠ 0 then RC5_bit1Pulse else RC5_bit0Pulse) ++
        RC5_sendBits message (bitmask / 2) i

/-- The body of the `do ... while(KEY_read())` loop of `RC5_sendCode`:
14 bits MSB first, carrier forced off, repeat pause. -/
def RC5_telegram (message : ℕ) : Trace :=
  RC5_sendBits message RC5_startBit 14 ++ IR_off ++ RC5_repeatPause

/-- `RC5_sendCode(uint8_t addr, uint8_t cmd)`: sends the assembled message
repeatedly while the key is held, then executes `RC5_toggle ^= 1`. -/
def RC5_sendCode (addr cmd toggle : ℕ) (keys : List Bool) : Trace × ℕ :=
  (PWM_set RC5_FREQ ++ doWhileKey (RC5_telegram (RC5_message addr cmd toggle)) keys,
   toggle ^^^ 1)

/-- Sony SIRC carrier frequency in Hertz (`SON_FREQ`). -/
def SON_FREQ : ℕ := 40000

/-- `SON_startPulse()`: 2400us burst + compensated 600us space. -/
def SON_startPulse : Trace := IR_on ++ DLY_us 2400 ++ IR_off ++ DLY_us 579

/-- `SON_bit0Pulse()`: compensated 600us burst + 600us space. -/
def SON_bit0Pulse : Trace := IR_on ++ DLY_us 587 ++ IR_off ++ DLY_us 579

/-- `SON_bit1Pulse()`: compensated 1200us burst + 600us space. -/
def SON_bit1Pulse : Trace := IR_on ++ DLY_us 1192 ++ IR_off ++ DLY_us 579

/-- `SON_repeatPause()`: 27ms wait between Sony telegrams. -/
def SON_repeatPause : Trace := DLY_ms 27

/-- The body of the `do { ... } while(--number)` loop of `SON_sendByte`,
generalised over the number of iterations actually executed. -/
def SON_sendBits : ℕ → ℕ → Trace
  | _, 0 => []
  | value, k + 1 =>
      (if value % 2 = 1 then SON_bit1Pulse else SON_bit0Pulse) ++
        SON_sendBits (value / 2) k

/-- `SON_sendByte(uint8_t value, uint8_t number)`: sends bits LSB first with
a post-test loop on a `uint8_t` counter, so a (truncated) count of `0`
wraps around and executes 256 iterations. -/
def SON_sendByte (value number : ℕ) : Trace :=
  SON_sendBits (value % 256) (if number % 256 = 0 then 256 else number % 256)

/-- The body of the `do ... while(KEY_read())` loop of `SON_sendCode`:
start frame, 7 command bits, the variant-selected address bits, pause. -/
def SON_telegram (addr cmd bits : ℕ) : Trace :=
  let a := addr % 65536
  let b := bits % 256
  SON_startPulse ++ SON_sendByte cmd 7 ++
  (if b = 12 then SON_sendByte a 5
   else if b = 15 then SON_sendByte a 8
   else if b = 20 then SON_sendByte a 8 ++ SON_sendByte (a / 256) 5
   else []) ++
  SON_repeatPause

/-- `SON_sendCode(uint16_t addr, uint8_t cmd, uint8_t bits)`; leaves
`RC5_toggle` unchanged. -/
def SON_sendCode (addr cmd bits toggle : ℕ) (keys : List Bool) : Trace × ℕ :=
  (PWM_set SON_FREQ ++ doWhileKey (SON_telegram addr cmd bits) keys, toggle)

/-- Concatenation of `n` copies of a trace. -/
def joinN : ℕ → Trace → Trace
  | 0, _ => []
  | n + 1, l => l ++ joinN n l

/-- Interpret a trace as a waveform: a list of `(carrier level, duration)`
segments, one per delay, starting from the given carrier level.  Frequency
changes take no time and do not change the level. -/
def toSegs (lvl : Bool) : Trace → List (Bool × ℕ)
  | [] => []
  | Act.on :: r => toSegs true r
  | Act.off :: r => toSegs false r
  | Act.freq _ :: r => toSegs lvl r
  | Act.dly d :: r => (lvl, d) :: toSegs lvl r

/-- Accumulate a pending segment of level `l` and duration `d` into the
remaining segments, merging adjacent segments of equal level. -/
def mergeInto (l : Bool) (d : ℕ) : List (Bool × ℕ) → List (Bool × ℕ)
  | [] => [(l, d)]
  | (l2, d2) :: rest =>
      if l = l2 then mergeInto l (d + d2) rest
      else (l, d) :: mergeInto l2 d2 rest

/-- Merge adjacent waveform segments with the same carrier level, so each
resulting entry is a maximal burst or space with its total duration. -/
def mergeSegs : List (Bool × ℕ) → List (Bool × ℕ)
  | [] => []
  | (l, d) :: rest => mergeInto l d rest

/-- Number of leading `true` hold-query responses. -/
def leadTrues (ks : List Bool) : ℕ := (ks.takeWhile id).length

/-!
## Claim-side (specification) descriptions

The following definitions transcribe the wording of the specification claims;
the theorems below compare them with the code-derived definitions above.
-/

/-- Spec wording: a byte emitted least-significant-bit first using the NEC
bit primitive (fixed burst, space extended for a "1"). -/
def necEncodeByteLSB (b : ℕ) : Trace :=
  (List.range 8).flatMap fun i =>
    NEC_normalPulse ++ (if b.testBit i then NEC_bit1Pause else [])

/-- Spec wording: the NEC byte sequence, `[addr, ~addr, cmd, ~cmd]` for an
8-bit address and `[low, high, cmd, ~cmd]` for an extended 16-bit address. -/
def necBytesSpec (addr cmd : ℕ) : List ℕ :=
  if addr ≤ 0xff then [addr, 255 - addr, cmd, 255 - cmd]
  else [addr % 256, addr / 256, cmd, 255 - cmd]

/-- Spec wording: `k` bits of `v` emitted LSB first with the Sony
pulse-length primitives. -/
def sonBitsLSB (v k : ℕ) : Trace :=
  (List.range k).flatMap fun i =>
    if v.testBit i then SON_bit1Pulse else SON_bit0Pulse

/-- Spec wording: the Sony address-region bits selected by the variant:
5 bits for 12, 8 bits for 15, 8 low then 5 high bits for 20, and nothing
for any other variant value. -/
def sonAddrBitsSpec (addr bits : ℕ) : Trace :=
  if bits = 12 then sonBitsLSB addr 5
  else if bits = 15 then sonBitsLSB addr 8
  else if bits = 20 then sonBitsLSB (addr % 256) 8 ++ sonBitsLSB (addr / 256) 5
  else []

/-- Spec wording: the 14 RC-5 message bits MSB first: start bit `1`,
inverse of command bit 6, the toggle state, 5 address bits MSB first,
6 low command bits MSB first. -/
def rc5ClaimBits (addr cmd toggle : ℕ) : List Bool :=
  [true, !cmd.testBit 6, toggle != 0] ++
    ((List.range 5).map fun i => addr.testBit (4 - i)) ++
    ((List.range 6).map fun i => cmd.testBit (5 - i))

/-- Spec wording: Manchester polarity with the code's compensated half-bit
durations — a "0" is carrier-on then carrier-off, a "1" is carrier-off then
carrier-on. -/
def rc5PulseSpec (b : Bool) : Trace :=
  if b then RC5_bit1Pulse else RC5_bit0Pulse

/-- Claim-as-stated RC-5 bit cell with EQUAL half-bit durations `d`
(the claim asserts equal halves, nominally 889us). -/
def rc5EqualPulse (d : ℕ) (b : Bool) : Trace :=
  if b then IR_off ++ DLY_us d ++ IR_on ++ DLY_us d
  else IR_on ++ DLY_us d ++ IR_off ++ DLY_us d

/-- Claim-as-stated RC-5 telegram body with equal half-bit durations `d`. -/
def rc5EqualTelegram (d addr cmd toggle : ℕ) : Trace :=
  (rc5ClaimBits addr cmd toggle).flatMap (rc5EqualPulse d) ++ IR_off ++
    RC5_repeatPause

/-- `x` lies within relative tolerance `tol` of the nominal value `nom`. -/
def withinTol (x nom tol : ℚ) : Prop := |x - nom| ≤ tol * nom

/-!
## Helper lemmas
-/

theorem joinN_succ (n : ℕ) (l : Trace) : joinN (n + 1) l = l ++ joinN n l := rfl

theorem whileKey_closed (body : Trace) (n : ℕ) (rest : List Bool) :
    whileKey body (List.replicate n true ++ false :: rest) = joinN n body := by
  induction n with
  | zero => simp [whileKey, joinN]
  | succ n ih => simp [List.replicate_succ, whileKey, joinN, ih]

theorem doWhileKey_closed (body : Trace) (n : ℕ) (rest : List Bool) :
    doWhileKey body (List.replicate n true ++ false :: rest) = joinN (n + 1) body := by
  induction n with
  | zero => simp [doWhileKey, joinN]
  | succ n ih => simp [List.replicate_succ, doWhileKey, joinN, ih]

theorem whileKey_canon (body : Trace) (ks : List Bool) (h : false ∈ ks) :
    whileKey body ks = joinN (leadTrues ks) body := by
  induction ks with
  | nil => cases h
  | cons k ks ih =>
    cases k
    · simp [whileKey, leadTrues, List.takeWhile_cons, joinN]
    · have h' : false ∈ ks := by simpa using h
      simp [whileKey, leadTrues, List.takeWhile_cons, joinN]
      simpa [leadTrues] using ih h'

theorem doWhileKey_canon (body : Trace) (ks : List Bool) (h : false ∈ ks) :
    doWhileKey body ks = joinN (leadTrues ks + 1) body := by
  induction ks with
  | nil => cases h
  | cons k ks ih =>
    cases k
    · simp [doWhileKey, leadTrues, List.takeWhile_cons, joinN]
    · have h' : false ∈ ks := by simpa using h
      simp [doWhileKey, leadTrues, List.takeWhile_cons, joinN_succ]
      simpa [leadTrues] using ih h'

theorem NEC_sendBits_eq (k : ℕ) : ∀ v : ℕ,
    NEC_sendBits v k = (List.range k).flatMap fun i =>
      NEC_normalPulse ++ (if v.testBit i then NEC_bit1Pause else []) := by
  induction k with
  | zero => intro v; simp [NEC_sendBits]
  | succ k ih =>
    intro v
    rw [NEC_sendBits, List.range_succ_eq_map, List.flatMap_cons, ih (v / 2)]
    simp [List.flatMap_map, Function.comp_def, Nat.testBit_div_two,
      Nat.testBit_zero]

theorem NEC_sendByte_eq (v : ℕ) : NEC_sendByte v = necEncodeByteLSB v := by
  rw [NEC_sendByte, NEC_sendBits_eq, necEncodeByteLSB]
  apply List.flatMap_congr
  intro i hi
  have hlt : i < 8 := List.mem_range.mp hi
  have h256 : (256 : ℕ) = 2 ^ 8 := by norm_num
  rw [h256, Nat.testBit_mod_two_pow]
  simp [hlt]

theorem SON_sendBits_eq (k : ℕ) : ∀ v : ℕ, SON_sendBits v k = sonBitsLSB v k := by
  induction k with
  | zero => intro v; simp [SON_sendBits, sonBitsLSB]
  | succ k ih =>
    intro v
    rw [SON_sendBits, sonBitsLSB, List.range_succ_eq_map, List.flatMap_cons,
      ih (v / 2)]
    simp [sonBitsLSB, List.flatMap_map, Function.comp_def, Nat.testBit_div_two,
      Nat.testBit_zero]

theorem SON_sendBits_length (k : ℕ) : ∀ v : ℕ,
    (SON_sendBits v k).length = 4 * k := by
  induction k with
  | zero => intro v; simp [SON_sendBits]
  | succ k ih =>
    intro v
    rw [SON_sendBits]
    by_cases h : v % 2 = 1 <;>
      simp [h, SON_bit0Pulse, SON_bit1Pulse, IR_on, IR_off, DLY_us, ih,
        Nat.mul_succ]

theorem SON_sendByte_small (v k : ℕ) (h1 : 1 ≤ k) (h2 : k ≤ 8) :
    SON_sendByte v k = sonBitsLSB v k := by
  have hk : k % 256 = k := Nat.mod_eq_of_lt (by omega)
  have hne : ¬ k % 256 = 0 := by omega
  rw [SON_sendByte, hk, if_neg (by omega), SON_sendBits_eq]
  apply List.flatMap_congr
  intro i hi
  have hlt : i < k := List.mem_range.mp hi
  have h256 : (256 : ℕ) = 2 ^ 8 := by norm_num
  rw [h256, Nat.testBit_mod_two_pow]
  simp [show i < 8 by omega]

theorem rc5CondPulse (m i : ℕ) :
    (if m &&& 2 ^ i ≠ 0 then RC5_bit1Pulse else RC5_bit0Pulse) =
      rc5PulseSpec (m.testBit i) := by
  rw [Nat.and_two_pow]
  cases h : m.testBit i <;> simp [rc5PulseSpec, h]

theorem RC5_sendBits_pow (m : ℕ) : ∀ j : ℕ,
    RC5_sendBits m (2 ^ j) (j + 1) =
      ((List.range (j + 1)).map fun i => m.testBit (j - i)).flatMap
        rc5PulseSpec := by
  intro j
  induction j with
  | zero =>
    have h0 : RC5_sendBits m (2 ^ 0) 1 =
        (if m &&& 2 ^ 0 ≠ 0 then RC5_bit1Pulse else RC5_bit0Pulse) ++ [] := rfl
    rw [h0, rc5CondPulse]
    simp [List.range_succ_eq_map]
  | succ j ih =>
    have hpow : 2 ^ (j + 1) / 2 = 2 ^ j := by
      rw [pow_succ]
      exact Nat.mul_div_cancel _ (by norm_num)
    have hstep : RC5_sendBits m (2 ^ (j + 1)) (j + 1 + 1) =
        (if m &&& 2 ^ (j + 1) ≠ 0 then RC5_bit1Pulse else RC5_bit0Pulse) ++
          RC5_sendBits m (2 ^ (j + 1) / 2) (j + 1) := rfl
    rw [hstep, hpow, ih, rc5CondPulse]
    simp [List.range_succ_eq_map, List.flatMap_cons, List.map_map,
      Function.comp_def, Nat.succ_sub_succ]

theorem RC5_sendBits_msb (m : ℕ) :
    RC5_sendBits m RC5_startBit 14 =
      ((List.range 14).map fun i => m.testBit (13 - i)).flatMap
        rc5PulseSpec := by
  have h : RC5_startBit = 2 ^ 13 := by norm_num [RC5_startBit]
  rw [h]
  exact RC5_sendBits_pow m 13

theorem rc5ArithForm : ∀ x, x < 32 → ∀ d, d < 64 → ∀ e tb : Bool,
    (let m1 := (x <<< 6) ||| d
     let m2 := if e then m1 ||| 4096 else m1
     let m3 := m2 ||| 8192
     if tb then m3 ||| 2048 else m3) =
      2 ^ 6 * (2 ^ 5 * (4 + 2 * cond e 1 0 + cond tb 1 0) + x) + d := by decide

theorem rc5Cmd6cond : ∀ c, c < 128 →
    ((255 - c) &&& 0x40 ≠ 0 ↔ c.testBit 6 = false) := by decide

theorem RC5_message_arith (a c t : ℕ) (ha : a < 32) (hc : c < 128) :
    RC5_message a c t =
      2 ^ 6 * (2 ^ 5 * (4 + 2 * cond (!c.testBit 6) 1 0 + cond (t != 0) 1 0) + a) +
        c % 64 := by
  have ha' : a % 256 = a := Nat.mod_eq_of_lt (by omega)
  have hc' : c % 256 = c := Nat.mod_eq_of_lt (by omega)
  have hd : c &&& 0x3f = c % 64 := by
    have h := Nat.and_pow_two_sub_one_eq_mod c 6
    norm_num at h
    exact h
  have hdlt : c % 64 < 64 := Nat.mod_lt _ (by norm_num)
  simp only [RC5_message, ha', hc', hd, RC5_cmdBit7, RC5_startBit, RC5_toggleBit]
  by_cases h6 : c.testBit 6 = false
  · rw [if_pos ((rc5Cmd6cond c hc).mpr h6)]
    by_cases ht : t ≠ 0
    · rw [if_pos ht]
      have h := rc5ArithForm a ha (c % 64) hdlt true true
      norm_num at h
      simp [h6, h, show (t != 0) = true by simpa using ht]
    · rw [if_neg ht]
      have h := rc5ArithForm a ha (c % 64) hdlt true false
      norm_num at h
      simp [h6, h, show (t != 0) = false by simpa using ht]
  · rw [if_neg fun hcnd => h6 ((rc5Cmd6cond c hc).mp hcnd)]
    by_cases ht : t ≠ 0
    · rw [if_pos ht]
      have h := rc5ArithForm a ha (c % 64) hdlt false true
      norm_num at h
      simp [show c.testBit 6 = true by simpa using h6, h,
        show (t != 0) = true by simpa using ht]
    · rw [if_neg ht]
      have h := rc5ArithForm a ha (c % 64) hdlt false false
      norm_num at h
      simp [show c.testBit 6 = true by simpa using h6, h,
        show (t != 0) = false by simpa using ht]

theorem RC5_message_bits (a c t : ℕ) (ha : a < 32) (hc : c < 128) :
    ((List.range 14).map fun i => (RC5_message a c t).testBit (13 - i)) =
      rc5ClaimBits a c t := by
  have hM := RC5_message_arith a c t ha hc
  set B := 4 + 2 * cond (!c.testBit 6) 1 0 + cond (t != 0) 1 0 with hB
  have h64 : (2 : ℕ) ^ 6 = 64 := by norm_num
  have h32 : (2 : ℕ) ^ 5 = 32 := by norm_num
  have hdlt : c % 64 < 2 ^ 6 := by omega
  have ha5 : a < 2 ^ 5 := by omega
  have hlow : ∀ k, k < 6 → (RC5_message a c t).testBit k = c.testBit k := by
    intro k hk
    rw [hM, Nat.testBit_mul_pow_two_add _ hdlt, if_pos hk, ← h64,
      Nat.testBit_mod_two_pow]
    simp [hk]
  have hmid : ∀ k, 6 ≤ k → k < 11 →
      (RC5_message a c t).testBit k = a.testBit (k - 6) := by
    intro k h1 h2
    rw [hM, Nat.testBit_mul_pow_two_add _ hdlt, if_neg (by omega),
      Nat.testBit_mul_pow_two_add _ ha5, if_pos (by omega)]
  have hhigh : ∀ k, 11 ≤ k → (RC5_message a c t).testBit k = B.testBit (k - 11) := by
    intro k hk
    rw [hM, Nat.testBit_mul_pow_two_add _ hdlt, if_neg (by omega),
      Nat.testBit_mul_pow_two_add _ ha5, if_neg (by omega)]
    norm_num [Nat.sub_sub]
  have hB2 : B.testBit 2 = true := by
    rcases Bool.eq_false_or_eq_true (c.testBit 6) with h6 | h6 <;>
      rcases Bool.eq_false_or_eq_true (t != 0) with ht | ht <;>
        rw [hB, h6, ht] <;> decide
  have hB1 : B.testBit 1 = !c.testBit 6 := by
    rcases Bool.eq_false_or_eq_true (c.testBit 6) with h6 | h6 <;>
      rcases Bool.eq_false_or_eq_true (t != 0) with ht | ht <;>
        rw [hB, h6, ht] <;> decide
  have hB0 : B.testBit 0 = (t != 0) := by
    rcases Bool.eq_false_or_eq_true (c.testBit 6) with h6 | h6 <;>
      rcases Bool.eq_false_or_eq_true (t != 0) with ht | ht <;>
        rw [hB, h6, ht] <;> decide
  have hr : List.range 14 = [0, 1, 2, 3, 4, 5, 6, 7, 8, 9, 10, 11, 12, 13] := rfl
  rw [hr]
  simp only [List.map_cons, List.map_nil,
    show (13 : ℕ) - 0 = 13 from rfl, show (13 : ℕ) - 1 = 12 from rfl,
    show (13 : ℕ) - 2 = 11 from rfl, show (13 : ℕ) - 3 = 10 from rfl,
    show (13 : ℕ) - 4 = 9 from rfl, show (13 : ℕ) - 5 = 8 from rfl,
    show (13 : ℕ) - 6 = 7 from rfl, show (13 : ℕ) - 7 = 6 from rfl,
    show (13 : ℕ) - 8 = 5 from rfl, show (13 : ℕ) - 9 = 4 from rfl,
    show (13 : ℕ) - 10 = 3 from rfl, show (13 : ℕ) - 11 = 2 from rfl,
    show (13 : ℕ) - 12 = 1 from rfl, show (13 : ℕ) - 13 = 0 from rfl]
  rw [hhigh 13 (by omega), hhigh 12 (by omega), hhigh 11 (by omega),
    hmid 10 (by omega) (by omega), hmid 9 (by omega) (by omega),
    hmid 8 (by omega) (by omega), hmid 7 (by omega) (by omega),
    hmid 6 (by omega) (by omega),
    hlow 5 (by omega), hlow 4 (by omega), hlow 3 (by omega),
    hlow 2 (by omega), hlow 1 (by omega), hlow 0 (by omega)]
  simp only [show (13 : ℕ) - 11 = 2 from rfl, show (12 : ℕ) - 11 = 1 from rfl,
    show (11 : ℕ) - 11 = 0 from rfl, show (10 : ℕ) - 6 = 4 from rfl,
    show (9 : ℕ) - 6 = 3 from rfl, show (8 : ℕ) - 6 = 2 from rfl,
    show (7 : ℕ) - 6 = 1 from rfl, show (6 : ℕ) - 6 = 0 from rfl]
  rw [hB2, hB1, hB0]
  have hr5 : List.range 5 = [0, 1, 2, 3, 4] := rfl
  have hr6 : List.range 6 = [0, 1, 2, 3, 4, 5] := rfl
  simp only [rc5ClaimBits, hr5, hr6, List.map_cons, List.map_nil,
    show (4 : ℕ) - 0 = 4 from rfl, show (4 : ℕ) - 1 = 3 from rfl,
    show (4 : ℕ) - 2 = 2 from rfl, show (4 : ℕ) - 3 = 1 from rfl,
    show (4 : ℕ) - 4 = 0 from rfl,
    show (5 : ℕ) - 0 = 5 from rfl, show (5 : ℕ) - 1 = 4 from rfl,
    show (5 : ℕ) - 2 = 3 from rfl, show (5 : ℕ) - 3 = 2 from rfl,
    show (5 : ℕ) - 4 = 1 from rfl, show (5 : ℕ) - 5 = 0 from rfl]
  simp

theorem necEncodeByteLSB_mod (v : ℕ) :
    necEncodeByteLSB (v % 256) = necEncodeByteLSB v := by
  unfold necEncodeByteLSB
  apply List.flatMap_congr
  intro i hi
  have hlt : i < 8 := List.mem_range.mp hi
  have h256 : (256 : ℕ) = 2 ^ 8 := by norm_num
  rw [h256, Nat.testBit_mod_two_pow]
  simp [hlt]

/-!
## Claim theorems
-/

/-- C1: for any 16-bit address and 8-bit command, `NEC_sendCode` emits the
start frame (9000us burst, 4500us space), then the bytes
`[addr, ~addr, cmd, ~cmd]` for `addr ≤ 0xFF` or `[low, high, cmd, ~cmd]`
for `addr > 0xFF`, each LSB first, then one end-marker burst; and for each
`true` hold-query response one repeat cycle of 40ms wait, repeat frame
(9ms burst, 2.25ms space, end burst) and 56ms wait. -/
theorem claim_C1 (addr cmd toggle n : ℕ) (rest : List Bool)
    (ha : addr < 65536) (hc : cmd < 256) :
    (NEC_sendCode addr cmd toggle (List.replicate n true ++ false :: rest)).1 =
      PWM_set NEC_FREQ ++ NEC_startPulse ++
        (necBytesSpec addr cmd).flatMap necEncodeByteLSB ++ NEC_normalPulse ++
        joinN n (DLY_ms 40 ++ NEC_repeatPulse ++ NEC_normalPulse ++ DLY_ms 56) := by
  have ha' : addr % 65536 = addr := Nat.mod_eq_of_lt ha
  have hc' : cmd % 256 = cmd := Nat.mod_eq_of_lt hc
  simp only [NEC_sendCode, NEC_telegram, ha', hc', whileKey_closed, NEC_repeatCode]
  by_cases hx : addr > 0xff
  · rw [if_pos hx, necBytesSpec, if_neg (by omega)]
    simp [NEC_sendByte_eq, necEncodeByteLSB_mod, List.append_assoc]
  · rw [if_neg hx, necBytesSpec, if_pos (by omega)]
    have haddr8 : addr % 256 = addr := Nat.mod_eq_of_lt (by omega)
    simp [NEC_sendByte_eq, necEncodeByteLSB_mod, haddr8, List.append_assoc]

theorem claim_C1_witness :
    (NEC_sendCode 4 8 0 (List.replicate 1 true ++ false :: [])).1 =
      PWM_set NEC_FREQ ++ NEC_startPulse ++
        (necBytesSpec 4 8).flatMap necEncodeByteLSB ++ NEC_normalPulse ++
        joinN 1 (DLY_ms 40 ++ NEC_repeatPulse ++ NEC_normalPulse ++ DLY_ms 56) :=
  claim_C1 4 8 0 1 [] (by decide) (by decide)

theorem sonBitsLSB_mod (v k : ℕ) (h : k ≤ 8) :
    sonBitsLSB (v % 256) k = sonBitsLSB v k := by
  unfold sonBitsLSB
  apply List.flatMap_congr
  intro i hi
  have hlt : i < k := List.mem_range.mp hi
  have h256 : (256 : ℕ) = 2 ^ 8 := by norm_num
  rw [h256, Nat.testBit_mod_two_pow]
  simp [show i < 8 by omega]

/-- C4: `SAM_sendCode` emits, once plus once more per `true` hold-query
response, the full telegram: 4500us burst + 4500us space start frame, the
bytes `[addr, addr, cmd, ~cmd]` with NEC bit timing LSB first, one
end-marker burst, and a 44ms pause before the hold-query is re-evaluated. -/
theorem claim_C4 (addr cmd toggle n : ℕ) (rest : List Bool)
    (ha : addr < 256) (hc : cmd < 256) :
    (SAM_sendCode addr cmd toggle (List.replicate n true ++ false :: rest)).1 =
      PWM_set NEC_FREQ ++
        joinN (n + 1)
          (SAM_startPulse ++ [addr, addr, cmd, 255 - cmd].flatMap necEncodeByteLSB ++
            NEC_normalPulse ++ DLY_ms 44) := by
  have ha' : addr % 256 = addr := Nat.mod_eq_of_lt ha
  have hc' : cmd % 256 = cmd := Nat.mod_eq_of_lt hc
  simp only [SAM_sendCode, SAM_telegram, SAM_repeatPause, ha', hc',
    doWhileKey_closed]
  simp [NEC_sendByte_eq, List.append_assoc]

theorem claim_C4_witness :
    (SAM_sendCode 7 2 0 (List.replicate 1 true ++ false :: [])).1 =
      PWM_set NEC_FREQ ++
        joinN 2
          (SAM_startPulse ++ [7, 7, 2, 253].flatMap necEncodeByteLSB ++
            NEC_normalPulse ++ DLY_ms 44) :=
  claim_C4 7 2 0 1 [] (by decide) (by decide)

/-- C5: each telegram of `SON_sendCode` is the start frame, exactly 7
command bits LSB first, then address bits LSB first: 5 for variant 12,
8 for variant 15, 8 low then 5 high for variant 20, and none (with no
error) for any other variant value. -/
theorem claim_C5 (addr cmd bits toggle n : ℕ) (rest : List Bool)
    (ha : addr < 65536) (hb : bits < 256) :
    (SON_sendCode addr cmd bits toggle (List.replicate n true ++ false :: rest)).1 =
      PWM_set SON_FREQ ++
        joinN (n + 1)
          (SON_startPulse ++ sonBitsLSB cmd 7 ++ sonAddrBitsSpec addr bits ++
            SON_repeatPause) := by
  have ha' : addr % 65536 = addr := Nat.mod_eq_of_lt ha
  have hb' : bits % 256 = bits := Nat.mod_eq_of_lt hb
  simp only [SON_sendCode, SON_telegram, ha', hb', doWhileKey_closed]
  unfold sonAddrBitsSpec
  by_cases h12 : bits = 12
  · simp [h12, SON_sendByte_small _ 7 (by omega) (by omega),
      SON_sendByte_small _ 5 (by omega) (by omega), List.append_assoc]
  · by_cases h15 : bits = 15
    · simp [h12, h15, SON_sendByte_small _ 7 (by omega) (by omega),
        SON_sendByte_small _ 8 (by omega) (by omega), List.append_assoc]
    · by_cases h20 : bits = 20
      · simp [h12, h15, h20, SON_sendByte_small _ 7 (by omega) (by omega),
          SON_sendByte_small _ 8 (by omega) (by omega),
          SON_sendByte_small _ 5 (by omega) (by omega), sonBitsLSB_mod _ 8,
          List.append_assoc]
      · simp [h12, h15, h20, SON_sendByte_small _ 7 (by omega) (by omega),
          List.append_assoc]

theorem claim_C5_witness :
    (SON_sendCode 1 21 12 0 (List.replicate 0 true ++ false :: [])).1 =
      PWM_set SON_FREQ ++
        joinN 1
          (SON_startPulse ++ sonBitsLSB 21 7 ++ sonAddrBitsSpec 1 12 ++
            SON_repeatPause) :=
  claim_C5 1 21 12 0 0 [] (by decide) (by decide)

theorem RC5_message_toggleBit (a c t : ℕ) (ha : a < 32) (hc : c < 128) :
    (RC5_message a c t).testBit 11 = (t != 0) := by
  have hM := RC5_message_arith a c t ha hc
  have h64 : (2 : ℕ) ^ 6 = 64 := by norm_num
  have h32 : (2 : ℕ) ^ 5 = 32 := by norm_num
  have hdlt : c % 64 < 2 ^ 6 := by omega
  have ha5 : a < 2 ^ 5 := by omega
  rw [hM, Nat.testBit_mul_pow_two_add _ hdlt, if_neg (by omega),
    Nat.testBit_mul_pow_two_add _ ha5, if_neg (by omega)]
  rcases Bool.eq_false_or_eq_true (c.testBit 6) with h6 | h6 <;>
    rcases Bool.eq_false_or_eq_true (t != 0) with ht | ht <;>
      rw [h6, ht] <;> decide

/-- C2 counterexample: at address 0, command 0x40, toggle 0, the waveform
emitted by `RC5_sendCode` does not match the claim-as-stated encoding with
equal half-bit durations of the nominal 889us: the code requests 880us and
871us halves. -/
theorem claim_C2_counterexample :
    (RC5_sendCode 0 64 0 [false]).1 ≠
      PWM_set RC5_FREQ ++ doWhileKey (rc5EqualTelegram 889 0 64 0) [false] := by
  decide

/-- C2 (amended): `RC5_sendCode` transmits, per telegram, 14 bits MSB first
(start bit 1, inverse of command bit 6, toggle state, 5 address bits,
6 low command bits), each "0" as carrier-on then carrier-off and each "1"
as carrier-off then carrier-on with half-bit durations of 880us then 871us
(compensated from the nominal 889us, so the halves are not equal), and the
carrier is forced off after the 14th bit. -/
theorem claim_C2 (addr cmd toggle : ℕ) (keys : List Bool)
    (ha : addr < 32) (hc : cmd < 128) :
    (RC5_sendCode addr cmd toggle keys).1 =
      PWM_set RC5_FREQ ++
        doWhileKey ((rc5ClaimBits addr cmd toggle).flatMap rc5PulseSpec ++
          IR_off ++ RC5_repeatPause) keys := by
  simp only [RC5_sendCode, RC5_telegram, RC5_sendBits_msb,
    RC5_message_bits addr cmd toggle ha hc]

theorem claim_C2_witness :
    (RC5_sendCode 0 11 0 [false]).1 =
      PWM_set RC5_FREQ ++
        doWhileKey ((rc5ClaimBits 0 11 0).flatMap rc5PulseSpec ++
          IR_off ++ RC5_repeatPause) [false] :=
  claim_C2 0 11 0 [false] (by decide) (by decide)

/-- C3: the toggle bit is constant across all repeat telegrams of one
`RC5_sendCode` call (the whole trace repeats the single message assembled
before the loop, whose bit 11 equals the incoming toggle state), the
toggle global is flipped exactly once on return, is never modified by
`NEC_sendCode`, `SAM_sendCode` or `SON_sendCode`, and two consecutive
independent `RC5_sendCode` calls transmit differing toggle bits (for the
reachable global states 0 and 1). -/
theorem claim_C3 (addr cmd bits toggle n : ℕ) (rest keys : List Bool)
    (ha : addr < 32) (hc : cmd < 128) (htg : toggle < 2) :
    ((RC5_sendCode addr cmd toggle (List.replicate n true ++ false :: rest)).1 =
      PWM_set RC5_FREQ ++
        joinN (n + 1) (RC5_telegram (RC5_message addr cmd toggle))) ∧
    (RC5_message addr cmd toggle).testBit 11 = (toggle != 0) ∧
    (RC5_sendCode addr cmd toggle keys).2 = toggle ^^^ 1 ∧
    (NEC_sendCode addr cmd toggle keys).2 = toggle ∧
    (SAM_sendCode addr cmd toggle keys).2 = toggle ∧
    (SON_sendCode addr cmd bits toggle keys).2 = toggle ∧
    (RC5_message addr cmd ((RC5_sendCode addr cmd toggle keys).2)).testBit 11 ≠
      (RC5_message addr cmd toggle).testBit 11 := by
  refine ⟨?_, RC5_message_toggleBit addr cmd toggle ha hc, rfl, rfl, rfl, rfl, ?_⟩
  · simp only [RC5_sendCode, doWhileKey_closed]
  · rw [RC5_message_toggleBit addr cmd _ ha hc,
      RC5_message_toggleBit addr cmd toggle ha hc]
    have h2 : (RC5_sendCode addr cmd toggle keys).2 = toggle ^^^ 1 := rfl
    rw [h2]
    interval_cases toggle <;> decide

theorem claim_C3_witness :
    ((RC5_sendCode 0 11 0 (List.replicate 1 true ++ false :: [])).1 =
      PWM_set RC5_FREQ ++ joinN 2 (RC5_telegram (RC5_message 0 11 0))) ∧
    (RC5_message 0 11 0).testBit 11 = (0 != 0) ∧
    (RC5_sendCode 0 11 0 [false]).2 = 0 ^^^ 1 ∧
    (NEC_sendCode 0 11 0 [false]).2 = 0 ∧
    (SAM_sendCode 0 11 0 [false]).2 = 0 ∧
    (SON_sendCode 0 11 12 0 [false]).2 = 0 ∧
    (RC5_message 0 11 ((RC5_sendCode 0 11 0 [false]).2)).testBit 11 ≠
      (RC5_message 0 11 0).testBit 11 :=
  claim_C3 0 11 12 0 1 [] [false] (by decide) (by decide) (by decide)

theorem NEC_sendBits_toSegs (k : ℕ) : ∀ v : ℕ,
    toSegs false (NEC_sendBits v k) =
      (List.range k).flatMap fun i =>
        if v.testBit i then [(true, 552), (false, 543), (false, 1125)]
        else [(true, 552), (false, 543)] := by
  induction k with
  | zero => intro v; simp [NEC_sendBits, toSegs]
  | succ k ih =>
    intro v
    rw [NEC_sendBits, List.range_succ_eq_map, List.flatMap_cons]
    by_cases h : v % 2 = 1
    · rw [if_pos h]
      simp [NEC_normalPulse, IR_on, IR_off, DLY_us, NEC_bit1Pause, toSegs, ih,
        List.flatMap_map, Function.comp_def, Nat.testBit_div_two,
        Nat.testBit_zero, h]
    · rw [if_neg h]
      simp [NEC_normalPulse, IR_on, IR_off, DLY_us, NEC_bit1Pause, toSegs, ih,
        List.flatMap_map, Function.comp_def, Nat.testBit_div_two,
        Nat.testBit_zero, h]

theorem mergeSegs_nec : ∀ bs : List Bool,
    mergeSegs (bs.flatMap fun b =>
        if b then [(true, 552), (false, 543), (false, 1125)]
        else [(true, 552), (false, 543)]) =
      bs.flatMap fun b => [(true, 552), (false, if b then 1668 else 543)] := by
  intro bs
  induction bs with
  | nil => rfl
  | cons b bs ih =>
    cases b
    · cases bs with
      | nil => rfl
      | cons b2 bs2 => cases b2 <;> simp_all [mergeSegs, mergeInto, List.flatMap_cons]
    · cases bs with
      | nil => rfl
      | cons b2 bs2 => cases b2 <;> simp_all [mergeSegs, mergeInto, List.flatMap_cons]

/-- C7 counterexample: for the byte `0x00`, every NEC "0" bit requests a
552us burst and a 543us space; 543us deviates from the nominal 562.5us by
about 3.47%, outside the claimed 2% band. -/
theorem claim_C7_counterexample :
    mergeSegs (toSegs false (NEC_sendByte 0)) =
      [(true, 552), (false, 543), (true, 552), (false, 543), (true, 552), (false, 543),
       (true, 552), (false, 543), (true, 552), (false, 543), (true, 552), (false, 543),
       (true, 552), (false, 543), (true, 552), (false, 543)] ∧
    ¬ withinTol 543 (1125 / 2) (2 / 100) := by
  constructor
  · decide
  · rw [withinTol, abs_le]
    norm_num

/-- C7 (amended): every NEC data bit of `NEC_sendByte` requests a 552us
burst, then a 543us space for a "0" and a 1668us space for a "1" (the
space alone encodes the bit value); these requested durations lie within
3.5% of the nominal 562.5us / 562.5us / 1687.5us values (the "0" space is
off by about 3.47%, so the claimed 2% band does not hold). -/
theorem claim_C7 (v : ℕ) :
    mergeSegs (toSegs false (NEC_sendByte v)) =
      ((List.range 8).map fun i => v.testBit i).flatMap
        (fun b => [(true, 552), (false, if b then 1668 else 543)]) ∧
    withinTol 552 (1125 / 2) (35 / 1000) ∧
    withinTol 543 (1125 / 2) (35 / 1000) ∧
    withinTol 1668 (3375 / 2) (35 / 1000) := by
  refine ⟨?_, ?_, ?_, ?_⟩
  · rw [NEC_sendByte, NEC_sendBits_toSegs]
    have hsplit : (List.range 8).flatMap
        (fun i => if (v % 256).testBit i then
            [(true, 552), (false, 543), (false, 1125)]
          else [(true, 552), (false, 543)]) =
        ((List.range 8).map fun i => (v % 256).testBit i).flatMap
          (fun b => if b then [(true, 552), (false, 543), (false, 1125)]
            else [(true, 552), (false, 543)]) := by
      rw [List.flatMap_map]
    rw [hsplit, mergeSegs_nec]
    have hmap : ((List.range 8).map fun i => (v % 256).testBit i) =
        (List.range 8).map fun i => v.testBit i := by
      apply List.map_congr_left
      intro i hi
      have hlt : i < 8 := List.mem_range.mp hi
      rw [show (256 : ℕ) = 2 ^ 8 by norm_num, Nat.testBit_mod_two_pow]
      simp [hlt]
    rw [hmap]
  · rw [withinTol, abs_le]; constructor <;> norm_num
  · rw [withinTol, abs_le]; constructor <;> norm_num
  · rw [withinTol, abs_le]; constructor <;> norm_num

/-- C6: with hold-query responses of `n` trues followed by a false, every
encoder emits its initial telegram and then exactly one repeat telegram
per `true` response (the abbreviated `NEC_repeatCode` for NEC, the full
telegram for the others), reads the query only between frames, and
returns at the first `false` regardless of any later responses. -/
theorem claim_C6 (addr cmd bits toggle n : ℕ) (rest : List Bool) :
    (NEC_sendCode addr cmd toggle (List.replicate n true ++ false :: rest)).1 =
      PWM_set NEC_FREQ ++ NEC_telegram addr cmd ++ joinN n NEC_repeatCode ∧
    (SAM_sendCode addr cmd toggle (List.replicate n true ++ false :: rest)).1 =
      PWM_set NEC_FREQ ++ joinN (n + 1) (SAM_telegram addr cmd) ∧
    (RC5_sendCode addr cmd toggle (List.replicate n true ++ false :: rest)).1 =
      PWM_set RC5_FREQ ++
        joinN (n + 1) (RC5_telegram (RC5_message addr cmd toggle)) ∧
    (SON_sendCode addr cmd bits toggle (List.replicate n true ++ false :: rest)).1 =
      PWM_set SON_FREQ ++ joinN (n + 1) (SON_telegram addr cmd bits) := by
  refine ⟨?_, ?_, ?_, ?_⟩ <;>
    simp only [NEC_sendCode, SAM_sendCode, RC5_sendCode, SON_sendCode,
      whileKey_closed, doWhileKey_closed]

/-- C8: for any hold-query response sequence containing a `false`, each
encoder's trace equals the trace for the canonical sequence that stops at
the first `false`: the call terminates, nothing after the first `false`
is read, and no telegram or repeat frame follows it. -/
theorem claim_C8 (addr cmd bits toggle : ℕ) (keys : List Bool)
    (h : false ∈ keys) :
    (NEC_sendCode addr cmd toggle keys).1 =
      (NEC_sendCode addr cmd toggle
        (List.replicate (leadTrues keys) true ++ [false])).1 ∧
    (SAM_sendCode addr cmd toggle keys).1 =
      (SAM_sendCode addr cmd toggle
        (List.replicate (leadTrues keys) true ++ [false])).1 ∧
    (RC5_sendCode addr cmd toggle keys).1 =
      (RC5_sendCode addr cmd toggle
        (List.replicate (leadTrues keys) true ++ [false])).1 ∧
    (SON_sendCode addr cmd bits toggle keys).1 =
      (SON_sendCode addr cmd bits toggle
        (List.replicate (leadTrues keys) true ++ [false])).1 := by
  refine ⟨?_, ?_, ?_, ?_⟩
  · simp only [NEC_sendCode]
    rw [whileKey_canon _ _ h, whileKey_closed]
  · simp only [SAM_sendCode]
    rw [doWhileKey_canon _ _ h, doWhileKey_closed]
  · simp only [RC5_sendCode]
    rw [doWhileKey_canon _ _ h, doWhileKey_closed]
  · simp only [SON_sendCode]
    rw [doWhileKey_canon _ _ h, doWhileKey_closed]

theorem claim_C8_witness :
    (NEC_sendCode 4 8 0 [true, false, true]).1 =
      (NEC_sendCode 4 8 0
        (List.replicate (leadTrues [true, false, true]) true ++ [false])).1 ∧
    (SAM_sendCode 4 8 0 [true, false, true]).1 =
      (SAM_sendCode 4 8 0
        (List.replicate (leadTrues [true, false, true]) true ++ [false])).1 ∧
    (RC5_sendCode 4 8 0 [true, false, true]).1 =
      (RC5_sendCode 4 8 0
        (List.replicate (leadTrues [true, false, true]) true ++ [false])).1 ∧
    (SON_sendCode 4 8 12 0 [true, false, true]).1 =
      (SON_sendCode 4 8 12 0
        (List.replicate (leadTrues [true, false, true]) true ++ [false])).1 :=
  claim_C8 4 8 12 0 [true, false, true] (by decide)

/-- C9: the encoders are deterministic: the emitted waveform depends only
on the arguments and the hold-query responses, not on the toggle global
for NEC, Samsung and Sony; and on identical toggle states RC-5 emits
identical waveforms. -/
theorem claim_C9 (addr cmd bits t1 t2 : ℕ) (keys : List Bool) :
    (NEC_sendCode addr cmd t1 keys).1 = (NEC_sendCode addr cmd t2 keys).1 ∧
    (SAM_sendCode addr cmd t1 keys).1 = (SAM_sendCode addr cmd t2 keys).1 ∧
    (SON_sendCode addr cmd bits t1 keys).1 =
      (SON_sendCode addr cmd bits t2 keys).1 ∧
    (t1 = t2 →
      (RC5_sendCode addr cmd t1 keys).1 = (RC5_sendCode addr cmd t2 keys).1) :=
  ⟨rfl, rfl, rfl, fun h => by rw [h]⟩

theorem claim_C9_witness :
    (NEC_sendCode 4 8 1 [true, false]).1 = (NEC_sendCode 4 8 0 [true, false]).1 ∧
    (SAM_sendCode 4 8 1 [true, false]).1 = (SAM_sendCode 4 8 0 [true, false]).1 ∧
    (SON_sendCode 4 8 12 1 [true, false]).1 =
      (SON_sendCode 4 8 12 0 [true, false]).1 ∧
    (RC5_sendCode 4 8 1 [true, false]).1 = (RC5_sendCode 4 8 1 [true, false]).1 :=
  ⟨(claim_C9 4 8 12 1 0 [true, false]).1, (claim_C9 4 8 12 1 0 [true, false]).2.1,
   (claim_C9 4 8 12 1 0 [true, false]).2.2.1,
   (claim_C9 4 8 12 1 1 [true, false]).2.2.2 rfl⟩

theorem SON_sendByte_length (x k : ℕ) (h1 : 1 ≤ k) (h2 : k ≤ 255) :
    (SON_sendByte x k).length = 4 * k := by
  have hk : k % 256 = k := Nat.mod_eq_of_lt (by omega)
  rw [SON_sendByte, hk, if_neg (by omega), SON_sendBits_length]

/-- C10: `SON_sendByte` emits exactly `number` bits (4 trace actions per
bit) when `1 ≤ number ≤ 255`, but emits 256 bits when `number = 0`
because the post-test decrement of the `uint8_t` counter wraps around;
every telegram of `SON_sendCode` stays within 85 actions, so the
wraparound branch is unreachable from the Sony entry point, whose call
sites only pass bit counts 5, 7 and 8. -/
theorem claim_C10 (v n addr cmd bits : ℕ) (h1 : 1 ≤ n) (h2 : n ≤ 255) :
    (SON_sendByte v n).length = 4 * n ∧
    (SON_sendByte v 0).length = 4 * 256 ∧
    (SON_telegram addr cmd bits).length ≤ 85 := by
  refine ⟨SON_sendByte_length v n h1 h2, ?_, ?_⟩
  · simp [SON_sendByte, SON_sendBits_length]
  · unfold SON_telegram
    have l7 := SON_sendByte_length cmd 7 (by omega) (by omega)
    have l5 := SON_sendByte_length (addr % 65536) 5 (by omega) (by omega)
    have l8 := SON_sendByte_length (addr % 65536) 8 (by omega) (by omega)
    have l5b := SON_sendByte_length (addr % 65536 / 256) 5 (by omega) (by omega)
    by_cases h12 : bits % 256 = 12 <;> by_cases h15 : bits % 256 = 15 <;>
      by_cases h20 : bits % 256 = 20 <;>
        simp [h12, h15, h20, List.length_append, l7, l5, l8, l5b,
          SON_startPulse, SON_repeatPause, IR_on, IR_off, DLY_us, DLY_ms]

theorem claim_C10_witness :
    (SON_sendByte 21 5).length = 4 * 5 ∧
    (SON_sendByte 21 0).length = 4 * 256 ∧
    (SON_telegram 1 21 12).length ≤ 85 :=
  claim_C10 21 5 1 21 12 (by decide) (by decide)
